import Mathlib

/-!
# Verification of the Distributed-File-System core

A shallow embedding, in Lean 4, of the chunk-based distributed file
store: the CRC32 checksum (`network.cpp`), the framed wire codec
(`NetworkSocket::send_frame`/`recv_frame`), the storage node
(`ChunkServer::handle_read`/`handle_write`/`delete_chunk`), and the client
session layer (`DistributedFileSystem`).

Modelling conventions:
* machine integers are `Nat`; 32-bit wraparound is made explicit with
  `% U32` exactly where the C++ computes in `uint32_t`;
* byte buffers (`std::vector<uint8_t>`) are `List Nat`; a byte read from
  memory is reduced mod 256 where the C++ type forces it;
* `std::map` is an association list with unique keys (uniqueness is part
  of the reachable-state invariant);
* wall-clock time (`std::time(nullptr)`) is passed in as an explicit
  `now : Nat` parameter;
* network I/O results that the control flow never reaches, or that come
  from the peer, are abstracted as explicit oracle parameters.
-/

/-- `2^32`, the modulus of `uint32_t` arithmetic. -/
def U32 : Nat := 4294967296

/-- `DFS_CHUNK_SIZE_BYTES = 64 * 1024 * 1024` from `common.h`. -/
def DFS_CHUNK_SIZE_BYTES : Nat := 64 * 1024 * 1024

/-- `DFS_PROTOCOL_MAGIC = 0xDEADBEEF` from `common.h`. -/
def DFS_PROTOCOL_MAGIC : Nat := 0xDEADBEEF

/-- `DFS_PROTOCOL_VERSION = 1` from `common.h`. -/
def DFS_PROTOCOL_VERSION : Nat := 1

/-- Message-type codes from the `MessageType` enum in `common.h`. -/
def OP_READ : Nat := 0x01
/-- `OP_WRITE = 0x02`. -/
def OP_WRITE : Nat := 0x02
/-- `OP_DELETE = 0x03`. -/
def OP_DELETE : Nat := 0x03
/-- `OP_ACK = 0xFF`. -/
def OP_ACK : Nat := 0xFF

/-- One entry of the CRC32 lookup table, as `init_crc32_table` in
`network.cpp` computes it: starting from the index, eight rounds of
"shift right one bit, xor with `0xEDB88320` if the bit shifted out was
set". -/
def crc32_table_entry (i : Nat) : Nat :=
  (List.range 8).foldl
    (fun crc _ => if crc % 2 = 1 then (crc / 2) ^^^ 0xEDB88320 else crc / 2) i

/-- `NetworkSocket::calculate_crc32` from `network.cpp`: CRC32 with
initial value `0xFFFFFFFF`, table-driven update
`crc = (crc >> 8) ^ table[(crc ^ byte) & 0xFF]`, final xor with
`0xFFFFFFFF`. -/
def calculate_crc32 (data : List Nat) : Nat :=
  (data.foldl
    (fun crc b => (crc / 256) ^^^ crc32_table_entry ((crc ^^^ b) % 256))
    0xFFFFFFFF) ^^^ 0xFFFFFFFF

/-- C8: the CRC32 of `network.cpp` meets the IEEE reference vectors:
the empty input hashes to 0 and the 9-byte ASCII string "123456789"
(bytes 0x31..0x39) hashes to `0xCBF43926`. -/
theorem crc32_reference_vectors :
    calculate_crc32 [] = 0
    ∧ calculate_crc32 [0x31, 0x32, 0x33, 0x34, 0x35, 0x36, 0x37, 0x38, 0x39]
      = 0xCBF43926 := by
  constructor
  · decide
  · decide

/-! ## Bounds for the CRC32 computation -/

/-- One shift-xor round of the table construction stays below `2^32`. -/
theorem crc_round_lt (c : Nat) (h : c < U32) :
    (if c % 2 = 1 then (c / 2) ^^^ 0xEDB88320 else c / 2) < U32 := by
  have h2 : c / 2 < 2 ^ 32 := by
    have := Nat.div_le_self c 2
    calc c / 2 ≤ c := this
      _ < U32 := h
  split
  · exact Nat.xor_lt_two_pow h2 (by norm_num)
  · exact h2

/-- Every CRC32 table entry is a 32-bit value. -/
theorem crc32_table_entry_lt (i : Nat) (h : i < U32) : crc32_table_entry i < U32 := by
  have hr : List.range 8 = [0, 1, 2, 3, 4, 5, 6, 7] := rfl
  unfold crc32_table_entry
  rw [hr]
  simp only [List.foldl]
  exact crc_round_lt _ (crc_round_lt _ (crc_round_lt _ (crc_round_lt _
    (crc_round_lt _ (crc_round_lt _ (crc_round_lt _ (crc_round_lt _ h)))))))

/-- One byte-update of the CRC accumulator stays below `2^32`. -/
theorem crc_update_lt (c b : Nat) (h : c < U32) :
    (c / 256) ^^^ crc32_table_entry ((c ^^^ b) % 256) < U32 := by
  have h1 : c / 256 < 2 ^ 32 := by
    have := Nat.div_le_self c 256
    calc c / 256 ≤ c := this
      _ < U32 := h
  have h2 : crc32_table_entry ((c ^^^ b) % 256) < U32 := by
    apply crc32_table_entry_lt
    have : (c ^^^ b) % 256 < 256 := Nat.mod_lt _ (by norm_num)
    calc (c ^^^ b) % 256 < 256 := this
      _ < U32 := by norm_num [U32]
  exact Nat.xor_lt_two_pow h1 h2

theorem crc_foldl_lt (data : List Nat) (acc : Nat) (h : acc < U32) :
    data.foldl (fun crc b => (crc / 256) ^^^ crc32_table_entry ((crc ^^^ b) % 256)) acc
      < U32 := by
  induction data generalizing acc with
  | nil => exact h
  | cons b t ih => exact ih _ (crc_update_lt _ _ h)

/-- `calculate_crc32` always returns a 32-bit value. -/
theorem calculate_crc32_lt (data : List Nat) : calculate_crc32 data < U32 := by
  unfold calculate_crc32
  have h1 : data.foldl (fun crc b => (crc / 256) ^^^ crc32_table_entry ((crc ^^^ b) % 256))
      0xFFFFFFFF < 2 ^ 32 := crc_foldl_lt data _ (by norm_num [U32])
  exact Nat.xor_lt_two_pow h1 (by norm_num)

/-! ## The framed wire codec (`network.cpp`)

`ProtocolFrame` in `common.h` is a 16-byte header (`magic : uint32`,
`version : uint16`, `message_type : uint16`, `payload_size : uint32`,
`checksum : uint32`, all little-endian, no padding) followed by the
payload array.  The logical payload is the first `payload_size` bytes of
that array, so the model carries the payload as a list and the
`payload_size` field is its length. -/

/-- Little-endian serialization of `v` into `n` bytes (how the bytes of a
fixed-width little-endian integer field lie in memory / on the wire). -/
def toLE : Nat → Nat → List Nat
  | 0, _ => []
  | n + 1, v => v % 256 :: toLE n (v / 256)

/-- Reading a little-endian integer from a byte list (each cell reduced
mod 256, as the `uint8_t` memory cells force). -/
def fromLE : List Nat → Nat
  | [] => 0
  | b :: bs => b % 256 + 256 * fromLE bs

theorem toLE_length (n v : Nat) : (toLE n v).length = n := by
  induction n generalizing v with
  | zero => rfl
  | succ m ih => simp [toLE, ih]

theorem fromLE_toLE (n v : Nat) (h : v < 256 ^ n) : fromLE (toLE n v) = v := by
  induction n generalizing v with
  | zero =>
    interval_cases v
    rfl
  | succ m ih =>
    have hdiv : v / 256 < 256 ^ m := by
      rw [Nat.div_lt_iff_lt_mul (by norm_num : 0 < 256)]
      calc v < 256 ^ (m + 1) := h
        _ = 256 ^ m * 256 := by ring
    simp only [toLE, fromLE, ih (v / 256) hdiv]
    omega

/-- The in-memory frame of `common.h`, with the `payload_size` field
identified with `payload.length`. -/
structure ProtocolFrame where
  magic : Nat
  version : Nat
  message_type : Nat
  checksum : Nat
  payload : List Nat
deriving DecidableEq

/-- The 16 header bytes of a frame as they lie in memory. -/
def frame_header_bytes (f : ProtocolFrame) : List Nat :=
  toLE 4 f.magic ++ toLE 2 f.version ++ toLE 2 f.message_type ++
    toLE 4 f.payload.length ++ toLE 4 f.checksum

/-- `NetworkSocket::send_frame`: the frame is serialized by a raw copy of
the struct.  The computed byte count
`frame_size = 4*sizeof(uint32_t) + 2*sizeof(uint16_t) + payload_size
= 20 + payload_size` overshoots the 16-byte header by 4, so four stray
bytes of the payload array beyond the logical payload go out as well;
`extra` stands for those stray bytes together with whatever else follows
on the TCP stream. -/
def send_frame_bytes (f : ProtocolFrame) (extra : List Nat) : List Nat :=
  frame_header_bytes f ++ f.payload ++ extra

/-- `NetworkSocket::recv_frame`: read 16 header bytes, parse the fields,
check the magic value, read `payload_size` payload bytes, check the CRC32
of the received payload against the `checksum` field.  Any check failing
rejects the frame (`none`): no frame and no partial state is produced.
The protocol `version` field and the `payload_size ≤ DFS_CHUNK_SIZE_BYTES`
bound are never inspected.  Returns the decoded frame and the bytes left
on the stream. -/
def recv_frame_bytes (bs : List Nat) : Option (ProtocolFrame × List Nat) :=
  if 16 ≤ bs.length then
    let magic := fromLE (bs.take 4)
    let version := fromLE ((bs.drop 4).take 2)
    let message_type := fromLE ((bs.drop 6).take 2)
    let payload_size := fromLE ((bs.drop 8).take 4)
    let checksum := fromLE ((bs.drop 12).take 4)
    if magic = DFS_PROTOCOL_MAGIC then
      let rest := bs.drop 16
      if payload_size ≤ rest.length then
        let payload := rest.take payload_size
        if calculate_crc32 payload = checksum then
          some (⟨magic, version, message_type, checksum, payload⟩,
                rest.drop payload_size)
        else none
      else none
    else none
  else none

/-! ## Round-trip and verification facts about the codec -/

theorem frame_header_length (f : ProtocolFrame) : (frame_header_bytes f).length = 16 := by
  simp [frame_header_bytes, toLE_length]

theorem send_frame_flat (f : ProtocolFrame) (extra : List Nat) :
    send_frame_bytes f extra
      = toLE 4 f.magic ++ (toLE 2 f.version ++ (toLE 2 f.message_type ++
        (toLE 4 f.payload.length ++ (toLE 4 f.checksum ++ (f.payload ++ extra))))) := by
  simp [send_frame_bytes, frame_header_bytes]

/-- C5: decoding an encoded frame recovers the frame and leaves the rest
of the stream untouched, for any frame with the valid magic value, 16-bit
version and message-type fields, the checksum field equal to the CRC32 of
the payload, and the payload within the size bound. -/
theorem recv_send_frame_roundtrip (f : ProtocolFrame) (extra : List Nat)
    (hm : f.magic = DFS_PROTOCOL_MAGIC)
    (hv : f.version < 2 ^ 16) (ht : f.message_type < 2 ^ 16)
    (hcrc : f.checksum = calculate_crc32 f.payload)
    (hlen : f.payload.length ≤ DFS_CHUNK_SIZE_BYTES) :
    recv_frame_bytes (send_frame_bytes f extra) = some (f, extra) := by
  obtain ⟨fm, fv, ft, fc, fp⟩ := f
  simp only at hm hv ht hcrc hlen
  rw [send_frame_flat]
  simp only
  have h1 : (toLE 4 fm).length = 4 := toLE_length _ _
  have h2 : (toLE 2 fv).length = 2 := toLE_length _ _
  have h3 : (toLE 2 ft).length = 2 := toLE_length _ _
  have h4 : (toLE 4 fp.length).length = 4 := toLE_length _ _
  have h5 : (toLE 4 fc).length = 4 := toLE_length _ _
  set big := toLE 4 fm ++ (toLE 2 fv ++ (toLE 2 ft ++
      (toLE 4 fp.length ++ (toLE 4 fc ++ (fp ++ extra))))) with hbig
  have e4 : big.drop 4 = toLE 2 fv ++ (toLE 2 ft ++
      (toLE 4 fp.length ++ (toLE 4 fc ++ (fp ++ extra)))) := List.drop_left' h1
  have e6 : big.drop 6 = toLE 2 ft ++ (toLE 4 fp.length ++ (toLE 4 fc ++ (fp ++ extra))) := by
    rw [show (6 : Nat) = 4 + 2 from rfl, ← List.drop_drop, e4]
    exact List.drop_left' h2
  have e8 : big.drop 8 = toLE 4 fp.length ++ (toLE 4 fc ++ (fp ++ extra)) := by
    rw [show (8 : Nat) = 6 + 2 from rfl, ← List.drop_drop, e6]
    exact List.drop_left' h3
  have e12 : big.drop 12 = toLE 4 fc ++ (fp ++ extra) := by
    rw [show (12 : Nat) = 8 + 4 from rfl, ← List.drop_drop, e8]
    exact List.drop_left' h4
  have e16 : big.drop 16 = fp ++ extra := by
    rw [show (16 : Nat) = 12 + 4 from rfl, ← List.drop_drop, e12]
    exact List.drop_left' h5
  have t0 : big.take 4 = toLE 4 fm := List.take_left' h1
  have t4 : (big.drop 4).take 2 = toLE 2 fv := by rw [e4]; exact List.take_left' h2
  have t6 : (big.drop 6).take 2 = toLE 2 ft := by rw [e6]; exact List.take_left' h3
  have t8 : (big.drop 8).take 4 = toLE 4 fp.length := by rw [e8]; exact List.take_left' h4
  have t12 : (big.drop 12).take 4 = toLE 4 fc := by rw [e12]; exact List.take_left' h5
  have m1 : fromLE (toLE 4 fm) = fm :=
    fromLE_toLE 4 _ (by rw [hm]; norm_num [DFS_PROTOCOL_MAGIC])
  have m2 : fromLE (toLE 2 fv) = fv := fromLE_toLE 2 _ (by norm_num at hv ⊢; omega)
  have m3 : fromLE (toLE 2 ft) = ft := fromLE_toLE 2 _ (by norm_num at ht ⊢; omega)
  have m4 : fromLE (toLE 4 fp.length) = fp.length := by
    apply fromLE_toLE
    norm_num [DFS_CHUNK_SIZE_BYTES] at hlen ⊢
    omega
  have m5 : fromLE (toLE 4 fc) = fc := by
    apply fromLE_toLE
    have := calculate_crc32_lt fp
    rw [hcrc]
    norm_num [U32] at this ⊢
    omega
  have hlen16 : 16 ≤ big.length := by
    rw [hbig]
    simp [toLE_length]
    omega
  unfold recv_frame_bytes
  rw [if_pos hlen16]
  simp only [t0, m1, t4, m2, t6, m3, t8, m4, t12, m5, e16]
  rw [if_pos hm, if_pos (show fp.length ≤ (fp ++ extra).length by simp),
    List.take_left, List.drop_left, if_pos hcrc.symm]

/-- C6 (amended): whenever `recv_frame` accepts a byte stream, the decoded
frame has the valid magic value and a checksum equal to the CRC32 of the
received payload: these two checks are performed, and any failure of them
yields `none` — no frame and no partial state.  (The protocol version and
the payload-size bound are not checked; see the counterexample.) -/
theorem recv_frame_checks_magic_and_crc (bs : List Nat) (f : ProtocolFrame)
    (rest : List Nat) (h : recv_frame_bytes bs = some (f, rest)) :
    f.magic = DFS_PROTOCOL_MAGIC ∧ f.checksum = calculate_crc32 f.payload := by
  simp only [recv_frame_bytes] at h
  split_ifs at h with hl hm hp hc
  · simp only [Option.some.injEq, Prod.mk.injEq] at h
    obtain ⟨hf, -⟩ := h
    subst hf
    exact ⟨hm, hc.symm⟩

/-- C6 counterexample: a well-formed 16-byte frame whose `version` field
is 99 — not `DFS_PROTOCOL_VERSION` — is nevertheless accepted by
`recv_frame`, so the version field is not verified on decode. -/
theorem recv_frame_accepts_wrong_version :
    recv_frame_bytes [0xEF, 0xBE, 0xAD, 0xDE, 99, 0, 2, 0, 0, 0, 0, 0, 0, 0, 0, 0]
      = some (⟨0xDEADBEEF, 99, 2, 0, []⟩, [])
    ∧ (99 : Nat) ≠ DFS_PROTOCOL_VERSION := by
  constructor
  · decide
  · decide

/-- Witness for the round-trip theorem: the literal scenario of the spec,
an `OP_WRITE` frame with payload "Hello" and checksum `0xF7D18982`. -/
theorem recv_send_frame_roundtrip_witness :
    (0xDEADBEEF : Nat) = DFS_PROTOCOL_MAGIC
    ∧ (1 : Nat) < 2 ^ 16 ∧ (2 : Nat) < 2 ^ 16
    ∧ (0xF7D18982 : Nat) = calculate_crc32 [0x48, 0x65, 0x6C, 0x6C, 0x6F]
    ∧ ([0x48, 0x65, 0x6C, 0x6C, 0x6F] : List Nat).length ≤ DFS_CHUNK_SIZE_BYTES
    ∧ recv_frame_bytes
        (send_frame_bytes ⟨0xDEADBEEF, 1, 2, 0xF7D18982, [0x48, 0x65, 0x6C, 0x6C, 0x6F]⟩
          [0, 0, 0, 0])
      = some (⟨0xDEADBEEF, 1, 2, 0xF7D18982, [0x48, 0x65, 0x6C, 0x6C, 0x6F]⟩,
              [0, 0, 0, 0]) :=
  ⟨by decide, by decide, by decide, by decide, by decide,
    recv_send_frame_roundtrip _ _ (by decide) (by decide) (by decide) (by decide) (by decide)⟩

/-- Witness for the amended C6 theorem, at a concrete accepted frame
(version 1, message type `OP_DELETE`, empty payload). -/
theorem recv_frame_checks_magic_and_crc_witness :
    recv_frame_bytes [0xEF, 0xBE, 0xAD, 0xDE, 1, 0, 3, 0, 0, 0, 0, 0, 0, 0, 0, 0]
      = some (⟨0xDEADBEEF, 1, 3, 0, []⟩, [])
    ∧ (0xDEADBEEF : Nat) = DFS_PROTOCOL_MAGIC
    ∧ (0 : Nat) = calculate_crc32 [] := by
  have h : recv_frame_bytes [0xEF, 0xBE, 0xAD, 0xDE, 1, 0, 3, 0, 0, 0, 0, 0, 0, 0, 0, 0]
      = some (⟨0xDEADBEEF, 1, 3, 0, []⟩, []) := by decide
  exact ⟨h, (recv_frame_checks_magic_and_crc _ _ _ h).1,
    (recv_frame_checks_magic_and_crc _ _ _ h).2⟩

/-! ## The storage node (`chunk_server.cpp`)

`ChunkServer` owns `std::map<uint64_t, StoredChunk> chunks_` together
with `used_capacity_` and `max_capacity_`.  The map is modelled as an
association list with unique keys; reachable states keep the keys
`Nodup`.  `used_capacity_` and sizes are mathematical naturals: under the
reachable-state invariant the C++ `uint64_t` arithmetic never wraps, so
the embedding coincides with the source there. -/

/-- `ChunkServer::StoredChunk` from `chunk_server.h`. -/
structure StoredChunk where
  chunk_id : Nat
  data : List Nat
  version : Nat
  size : Nat
  creation_time : Nat
  last_access : Nat
  checksum : Nat
deriving DecidableEq

/-- The mutable state of a `ChunkServer`: capacity bounds and the chunk
table (the fields of `chunk_server.h` that the chunk operations touch). -/
structure ServerState where
  max_capacity : Nat
  used_capacity : Nat
  chunks : List (Nat × StoredChunk)
deriving DecidableEq

/-- `chunks_.find(id)`: first entry with the given key. -/
def lookupChunk : List (Nat × StoredChunk) → Nat → Option StoredChunk
  | [], _ => none
  | (k, c) :: t, id => if k = id then some c else lookupChunk t id

/-- In-place mutation of the entry `it->second` found for `id`. -/
def updateChunk (l : List (Nat × StoredChunk)) (id : Nat) (c : StoredChunk) :
    List (Nat × StoredChunk) :=
  l.map fun p => if p.1 = id then (id, c) else p

/-- `chunks_.erase(it)` for the entry keyed `id`. -/
def eraseChunk (l : List (Nat × StoredChunk)) (id : Nat) : List (Nat × StoredChunk) :=
  l.filter fun p => p.1 ≠ id

/-- `Σ chunks[*].size`. -/
def sumSizes (l : List (Nat × StoredChunk)) : Nat :=
  (l.map fun p => p.2.size).sum

/-- `std::vector<uint8_t>::resize(n)`: truncate or zero-extend to
length `n`. -/
def listResize (buf : List Nat) (n : Nat) : List Nat :=
  buf.take n ++ List.replicate (n - buf.length) 0

/-- `memcpy(buf.data() + off, d.data(), d.size())` on a buffer of fixed
length: overwrite positions `[off, off + d.length)` (writes beyond the
end of the buffer — undefined behaviour in the source — are dropped). -/
def splice (buf : List Nat) (off : Nat) (d : List Nat) : List Nat :=
  buf.take off ++ d.take (buf.length - off) ++ buf.drop (off + d.length)

/-- `FileWriteRequest` from `common.h` (`offset` is a `uint32_t` field,
so callers only ever store values below `2^32` in it). -/
structure FileWriteRequest where
  chunk_id : Nat
  offset : Nat
  data : List Nat
  version : Nat
  client_id : String
deriving DecidableEq

/-- `FileWriteResponse` from `common.h`.  `handle_write` never assigns
`chunk_id` on its failure paths, so the field is an `Option`. -/
structure FileWriteResponse where
  chunk_id : Option Nat
  success : Bool
  error_message : String
deriving DecidableEq

/-- `FileReadRequest` from `common.h` (`offset` and `length` are
`uint32_t` fields). -/
structure FileReadRequest where
  chunk_id : Nat
  offset : Nat
  length : Nat
  version : Nat
  client_id : String
deriving DecidableEq

/-- The fields of `FileReadResponse` that `handle_read` assigns
(`chunk_id`, `offset` and `length` are never written and are omitted). -/
structure FileReadResponse where
  data : List Nat
  success : Bool
  error_message : String
deriving DecidableEq

/-- `uint32_t` subtraction `a - b` (operands reduced to 32 bits, wrapping
difference). -/
def sub32 (a b : Nat) : Nat := (a % U32 + U32 - b % U32) % U32

/-- The `new_size` computation of `ChunkServer::handle_write`:
`std::max(req.offset + (uint32_t)req.data.size(), (uint32_t)chunk.size)`,
carried out in `uint32_t`. -/
def write_new_size (off len sz : Nat) : Nat :=
  max ((off % U32 + len % U32) % U32) (sz % U32)

/-- The `StoredChunk` built by the create branch of
`ChunkServer::handle_write`: `version = 1`, bytes exactly the request
data (the request offset is never consulted), CRC of those bytes. -/
def createdChunk (now : Nat) (id : Nat) (d : List Nat) : StoredChunk :=
  { chunk_id := id
    version := 1
    creation_time := now
    last_access := now
    data := d
    size := d.length
    checksum := calculate_crc32 d }

/-- The mutated `StoredChunk` of the existing-chunk branch of
`ChunkServer::handle_write`: the buffer is resized to `new_size`
(zero-filling any gap), the request bytes are spliced in at `offset`,
`version` is bumped, `last_access` touched and the CRC recomputed over
the new bytes. -/
def writtenChunk (now : Nat) (c : StoredChunk) (off : Nat) (d : List Nat) : StoredChunk :=
  { c with
    data := splice (listResize c.data (write_new_size off d.length c.size)) off d
    size := write_new_size off d.length c.size
    version := c.version + 1
    last_access := now
    checksum :=
      calculate_crc32 (splice (listResize c.data (write_new_size off d.length c.size)) off d) }

theorem writtenChunk_size (now : Nat) (c : StoredChunk) (off : Nat) (d : List Nat) :
    (writtenChunk now c off d).size = write_new_size off d.length c.size := rfl

/-- The `last_access` touch `handle_read` performs on the chunk it
serves. -/
def touchedChunk (now : Nat) (c : StoredChunk) : StoredChunk :=
  { c with last_access := now }

theorem touchedChunk_size (now : Nat) (c : StoredChunk) :
    (touchedChunk now c).size = c.size := rfl

/-- `ChunkServer::handle_write` (`chunk_server.cpp`).  First checks
`used_capacity_ + req.data.size() > max_capacity_` (for any chunk,
present or not), then either creates a fresh chunk or — after the second
capacity check `used - chunk.size + new_size > max_capacity_` — mutates
the existing one, readjusting `used_capacity_`. -/
def handle_write (now : Nat) (s : ServerState) (req : FileWriteRequest) :
    ServerState × FileWriteResponse :=
  if s.used_capacity + req.data.length > s.max_capacity then
    (s, ⟨none, false, "Insufficient storage capacity"⟩)
  else
    match lookupChunk s.chunks req.chunk_id with
    | none =>
        ({ s with chunks := s.chunks ++ [(req.chunk_id, createdChunk now req.chunk_id req.data)],
                  used_capacity := s.used_capacity + req.data.length },
         ⟨some req.chunk_id, true, ""⟩)
    | some c =>
        if s.used_capacity - c.size + write_new_size req.offset req.data.length c.size
            > s.max_capacity then
          (s, ⟨none, false, "Insufficient storage capacity"⟩)
        else
          ({ s with
              chunks := updateChunk s.chunks req.chunk_id (writtenChunk now c req.offset req.data),
              used_capacity :=
                s.used_capacity - c.size + write_new_size req.offset req.data.length c.size },
           ⟨some req.chunk_id, true, ""⟩)

/-- `ChunkServer::handle_read` (`chunk_server.cpp`): absent chunk fails
with "Chunk not found"; `offset ≥ size` fails with "Offset out of range";
otherwise copy out `read_size = min(length, (uint32_t)size - offset)`
bytes starting at `offset` and touch `last_access`.  (The source computes
`read_size` before the range check; the computation is pure, so placing
it in the success branch is equivalent.) -/
def handle_read (now : Nat) (s : ServerState) (req : FileReadRequest) :
    ServerState × FileReadResponse :=
  match lookupChunk s.chunks req.chunk_id with
  | none => (s, ⟨[], false, "Chunk not found"⟩)
  | some c =>
      if req.offset ≥ c.size then
        (s, ⟨[], false, "Offset out of range"⟩)
      else
        ({ s with chunks := updateChunk s.chunks req.chunk_id (touchedChunk now c) },
         ⟨(c.data.drop req.offset).take (min req.length (sub32 c.size req.offset)), true, ""⟩)

/-- `ChunkServer::delete_chunk` (`chunk_server.cpp`): missing chunk is a
no-op returning `false`; otherwise subtract the chunk's size from
`used_capacity_` and erase it. -/
def delete_chunk (s : ServerState) (id : Nat) : ServerState × Bool :=
  match lookupChunk s.chunks id with
  | none => (s, false)
  | some c =>
      ({ s with used_capacity := s.used_capacity - c.size,
                chunks := eraseChunk s.chunks id }, true)

/-- The `OP_DELETE` arm of `ChunkServer::process_message`: run
`delete_chunk` and answer `OP_ACK` regardless of its result. -/
def process_delete (s : ServerState) (id : Nat) : ServerState × Nat :=
  ((delete_chunk s id).1, OP_ACK)

/-- The chunk operations a storage node serves (state-changing part). -/
inductive ServerOp where
  | write (now : Nat) (req : FileWriteRequest)
  | read (now : Nat) (req : FileReadRequest)
  | del (chunk_id : Nat)

/-- State transition of one served operation. -/
def applyServerOp (s : ServerState) : ServerOp → ServerState
  | .write now req => (handle_write now s req).1
  | .read now req => (handle_read now s req).1
  | .del id => (delete_chunk s id).1

/-- A freshly constructed `ChunkServer`: `used_capacity_ = 0`, empty
chunk table. -/
def initServer (max_capacity : Nat) : ServerState :=
  { max_capacity := max_capacity, used_capacity := 0, chunks := [] }

/-- The state after serving a sequence of operations from the initial
state. -/
def runServer (max_capacity : Nat) (ops : List ServerOp) : ServerState :=
  ops.foldl applyServerOp (initServer max_capacity)

/-- A stored chunk is well-formed: `size` is the byte count and
`checksum` is the CRC32 of the bytes. -/
def goodChunk (c : StoredChunk) : Prop :=
  c.size = c.data.length ∧ c.checksum = calculate_crc32 c.data

/-- The storage-node invariant of the spec: capacity accounting matches
the chunk table, and every stored chunk is well-formed. -/
def serverInv (s : ServerState) : Prop :=
  s.used_capacity = sumSizes s.chunks ∧ ∀ p ∈ s.chunks, goodChunk p.2

/-! ## Basic facts about the chunk-table operations -/

theorem length_listResize (buf : List Nat) (n : Nat) :
    (listResize buf n).length = n := by
  simp [listResize]
  omega

theorem length_splice (buf : List Nat) (off : Nat) (d : List Nat) :
    (splice buf off d).length = buf.length := by
  simp [splice]
  omega

theorem lookupChunk_mem {l : List (Nat × StoredChunk)} {id : Nat} {c : StoredChunk}
    (h : lookupChunk l id = some c) : (id, c) ∈ l := by
  induction l with
  | nil => simp [lookupChunk] at h
  | cons p t ih =>
    obtain ⟨k, a⟩ := p
    simp only [lookupChunk] at h
    split at h
    · rename_i hk
      cases h
      subst hk
      exact List.mem_cons_self _ _
    · exact List.mem_cons_of_mem _ (ih h)

theorem lookupChunk_eq_none {l : List (Nat × StoredChunk)} {id : Nat} :
    lookupChunk l id = none ↔ id ∉ l.map Prod.fst := by
  induction l with
  | nil => simp [lookupChunk]
  | cons p t ih =>
    obtain ⟨k, a⟩ := p
    simp only [lookupChunk, List.map_cons, List.mem_cons]
    by_cases hk : k = id
    · subst hk
      simp
    · rw [if_neg hk, ih]
      constructor
      · intro h hor
        rcases hor with h1 | h2
        · exact hk h1.symm
        · exact h h2
      · intro h h2
        exact h (Or.inr h2)

theorem updateChunk_cons (k : Nat) (a : StoredChunk) (t : List (Nat × StoredChunk))
    (id : Nat) (c : StoredChunk) :
    updateChunk ((k, a) :: t) id c
      = (if k = id then (id, c) else (k, a)) :: updateChunk t id c := rfl

theorem eraseChunk_cons (k : Nat) (a : StoredChunk) (t : List (Nat × StoredChunk))
    (id : Nat) :
    eraseChunk ((k, a) :: t) id
      = if k = id then eraseChunk t id else (k, a) :: eraseChunk t id := by
  simp only [eraseChunk, List.filter]
  by_cases hk : k = id
  · simp [hk]
  · simp [hk]

theorem updateChunk_keys (l : List (Nat × StoredChunk)) (id : Nat) (c : StoredChunk) :
    (updateChunk l id c).map Prod.fst = l.map Prod.fst := by
  induction l with
  | nil => rfl
  | cons p t ih =>
    obtain ⟨k, a⟩ := p
    rw [updateChunk_cons]
    by_cases hk : k = id
    · rw [if_pos hk, List.map_cons, List.map_cons, ih, hk]
    · rw [if_neg hk, List.map_cons, List.map_cons, ih]

theorem updateChunk_of_not_mem {l : List (Nat × StoredChunk)} {id : Nat}
    (c : StoredChunk) (h : id ∉ l.map Prod.fst) : updateChunk l id c = l := by
  induction l with
  | nil => rfl
  | cons p t ih =>
    obtain ⟨k, a⟩ := p
    simp only [List.map_cons, List.mem_cons] at h
    push_neg at h
    rw [updateChunk_cons, if_neg (fun hk => h.1 hk.symm), ih h.2]

theorem lookupChunk_updateChunk {l : List (Nat × StoredChunk)} {id : Nat}
    {c : StoredChunk} (c' : StoredChunk) (h : lookupChunk l id = some c) :
    lookupChunk (updateChunk l id c') id = some c' := by
  induction l with
  | nil => simp [lookupChunk] at h
  | cons p t ih =>
    obtain ⟨k, a⟩ := p
    simp only [lookupChunk] at h
    rw [updateChunk_cons]
    by_cases hk : k = id
    · rw [if_pos hk]
      simp [lookupChunk]
    · rw [if_neg hk] at h ⊢
      simp only [lookupChunk, if_neg hk]
      exact ih h

theorem mem_updateChunk {l : List (Nat × StoredChunk)} {id : Nat} {c : StoredChunk}
    {q : Nat × StoredChunk} (h : q ∈ updateChunk l id c) :
    q = (id, c) ∨ q ∈ l := by
  simp only [updateChunk, List.mem_map] at h
  obtain ⟨p, hp, hq⟩ := h
  by_cases hk : p.1 = id
  · rw [if_pos hk] at hq
    exact Or.inl hq.symm
  · rw [if_neg hk] at hq
    exact Or.inr (hq ▸ hp)

theorem sumSizes_updateChunk {l : List (Nat × StoredChunk)} {id : Nat} {c : StoredChunk}
    (c' : StoredChunk) (hnd : (l.map Prod.fst).Nodup) (h : lookupChunk l id = some c) :
    sumSizes (updateChunk l id c') + c.size = sumSizes l + c'.size := by
  induction l with
  | nil => simp [lookupChunk] at h
  | cons p t ih =>
    obtain ⟨k, a⟩ := p
    simp only [List.map_cons, List.nodup_cons] at hnd
    simp only [lookupChunk] at h
    rw [updateChunk_cons]
    by_cases hk : k = id
    · rw [if_pos hk] at h ⊢
      cases h
      rw [updateChunk_of_not_mem c' (hk ▸ hnd.1)]
      simp only [sumSizes, List.map_cons, List.sum_cons]
      omega
    · rw [if_neg hk] at h ⊢
      have := ih hnd.2 h
      simp only [sumSizes, List.map_cons, List.sum_cons] at this ⊢
      omega

theorem eraseChunk_of_not_mem {l : List (Nat × StoredChunk)} {id : Nat}
    (h : id ∉ l.map Prod.fst) : eraseChunk l id = l := by
  rw [eraseChunk, List.filter_eq_self]
  intro p hp
  have hne : p.1 ≠ id := by
    intro hk
    exact h (hk ▸ List.mem_map_of_mem Prod.fst hp)
  exact decide_eq_true hne

theorem sumSizes_eraseChunk {l : List (Nat × StoredChunk)} {id : Nat} {c : StoredChunk}
    (hnd : (l.map Prod.fst).Nodup) (h : lookupChunk l id = some c) :
    sumSizes (eraseChunk l id) + c.size = sumSizes l := by
  induction l with
  | nil => simp [lookupChunk] at h
  | cons p t ih =>
    obtain ⟨k, a⟩ := p
    simp only [List.map_cons, List.nodup_cons] at hnd
    simp only [lookupChunk] at h
    rw [eraseChunk_cons]
    by_cases hk : k = id
    · rw [if_pos hk]
      rw [if_pos hk] at h
      cases h
      rw [eraseChunk_of_not_mem (hk ▸ hnd.1)]
      simp only [sumSizes, List.map_cons, List.sum_cons]
      omega
    · rw [if_neg hk]
      rw [if_neg hk] at h
      have := ih hnd.2 h
      simp only [sumSizes, List.map_cons, List.sum_cons] at this ⊢
      omega

theorem lookupChunk_eraseChunk (l : List (Nat × StoredChunk)) (id : Nat) :
    lookupChunk (eraseChunk l id) id = none := by
  induction l with
  | nil => rfl
  | cons p t ih =>
    obtain ⟨k, a⟩ := p
    rw [eraseChunk_cons]
    by_cases hk : k = id
    · rw [if_pos hk]
      exact ih
    · rw [if_neg hk]
      simp only [lookupChunk, if_neg hk]
      exact ih

theorem mem_eraseChunk {l : List (Nat × StoredChunk)} {id : Nat}
    {q : Nat × StoredChunk} (h : q ∈ eraseChunk l id) : q ∈ l :=
  List.mem_of_mem_filter h

theorem eraseChunk_keys_nodup {l : List (Nat × StoredChunk)} {id : Nat}
    (hnd : (l.map Prod.fst).Nodup) : ((eraseChunk l id).map Prod.fst).Nodup :=
  List.Nodup.sublist (List.Sublist.map Prod.fst (List.filter_sublist l)) hnd

theorem size_le_sumSizes {l : List (Nat × StoredChunk)} {id : Nat} {c : StoredChunk}
    (h : lookupChunk l id = some c) : c.size ≤ sumSizes l := by
  have hm := lookupChunk_mem h
  have : c.size ∈ l.map fun p => p.2.size := by
    have := List.mem_map_of_mem (fun p : Nat × StoredChunk => p.2.size) hm
    simpa using this
  exact List.single_le_sum (fun x _ => Nat.zero_le x) _ this

theorem sumSizes_append (l1 l2 : List (Nat × StoredChunk)) :
    sumSizes (l1 ++ l2) = sumSizes l1 + sumSizes l2 := by
  simp [sumSizes]

/-- The strengthened induction invariant: the spec invariant plus
uniqueness of the chunk keys (which `std::map` guarantees). -/
def serverInvStrong (s : ServerState) : Prop :=
  serverInv s ∧ (s.chunks.map Prod.fst).Nodup

theorem handle_write_preserves (now : Nat) (s : ServerState) (req : FileWriteRequest)
    (h : serverInvStrong s) : serverInvStrong (handle_write now s req).1 := by
  obtain ⟨⟨hsum, hgood⟩, hnd⟩ := h
  unfold handle_write
  split
  · exact ⟨⟨hsum, hgood⟩, hnd⟩
  · split
    · rename_i hnone
      refine ⟨⟨?_, ?_⟩, ?_⟩
      · simp only [sumSizes, List.map_append, List.sum_append, List.map_cons,
          List.map_nil, List.sum_cons, List.sum_nil, createdChunk]
        simp only [sumSizes] at hsum
        omega
      · intro p hp
        rcases List.mem_append.1 hp with h1 | h2
        · exact hgood p h1
        · simp only [List.mem_singleton] at h2
          subst h2
          exact ⟨rfl, rfl⟩
      · simp only [List.map_append, List.map_cons, List.map_nil]
        rw [List.nodup_append]
        refine ⟨hnd, List.nodup_singleton _, ?_⟩
        intro a ha hb
        simp only [List.mem_singleton] at hb
        subst hb
        exact (lookupChunk_eq_none.1 hnone) ha
    · rename_i c hsome
      split
      · exact ⟨⟨hsum, hgood⟩, hnd⟩
      · rename_i hcap2
        refine ⟨⟨?_, ?_⟩, ?_⟩
        · have hup := sumSizes_updateChunk
            (writtenChunk now c req.offset req.data) hnd hsome
          rw [writtenChunk_size] at hup
          have hle := size_le_sumSizes hsome
          show s.used_capacity - c.size + write_new_size req.offset req.data.length c.size
            = sumSizes (updateChunk s.chunks req.chunk_id (writtenChunk now c req.offset req.data))
          omega
        · intro p hp
          rcases mem_updateChunk hp with h1 | h2
          · subst h1
            refine ⟨?_, rfl⟩
            show write_new_size req.offset req.data.length c.size
              = (splice (listResize c.data (write_new_size req.offset req.data.length c.size))
                  req.offset req.data).length
            rw [length_splice, length_listResize]
          · exact hgood p h2
        · show ((updateChunk s.chunks req.chunk_id
              (writtenChunk now c req.offset req.data)).map Prod.fst).Nodup
          rw [updateChunk_keys]
          exact hnd

theorem handle_read_preserves (now : Nat) (s : ServerState) (req : FileReadRequest)
    (h : serverInvStrong s) : serverInvStrong (handle_read now s req).1 := by
  obtain ⟨⟨hsum, hgood⟩, hnd⟩ := h
  unfold handle_read
  split
  · exact ⟨⟨hsum, hgood⟩, hnd⟩
  · rename_i c hsome
    split
    · exact ⟨⟨hsum, hgood⟩, hnd⟩
    · refine ⟨⟨?_, ?_⟩, ?_⟩
      · have hup := sumSizes_updateChunk (touchedChunk now c) hnd hsome
        rw [touchedChunk_size] at hup
        show s.used_capacity
          = sumSizes (updateChunk s.chunks req.chunk_id (touchedChunk now c))
        omega
      · intro p hp
        rcases mem_updateChunk hp with h1 | h2
        · subst h1
          have := hgood _ (lookupChunk_mem hsome)
          exact ⟨this.1, this.2⟩
        · exact hgood p h2
      · show ((updateChunk s.chunks req.chunk_id (touchedChunk now c)).map Prod.fst).Nodup
        rw [updateChunk_keys]
        exact hnd

theorem delete_chunk_preserves (s : ServerState) (id : Nat)
    (h : serverInvStrong s) : serverInvStrong (delete_chunk s id).1 := by
  obtain ⟨⟨hsum, hgood⟩, hnd⟩ := h
  unfold delete_chunk
  split
  · exact ⟨⟨hsum, hgood⟩, hnd⟩
  · rename_i c hsome
    refine ⟨⟨?_, ?_⟩, ?_⟩
    · have hup := sumSizes_eraseChunk hnd hsome
      have hle := size_le_sumSizes hsome
      show s.used_capacity - c.size = sumSizes (eraseChunk s.chunks id)
      omega
    · intro p hp
      exact hgood p (mem_eraseChunk hp)
    · exact eraseChunk_keys_nodup hnd

theorem applyServerOp_preserves (s : ServerState) (op : ServerOp)
    (h : serverInvStrong s) : serverInvStrong (applyServerOp s op) := by
  cases op with
  | write now req => exact handle_write_preserves now s req h
  | read now req => exact handle_read_preserves now s req h
  | del id => exact delete_chunk_preserves s id h

theorem foldl_preserves (ops : List ServerOp) (s : ServerState)
    (h : serverInvStrong s) : serverInvStrong (ops.foldl applyServerOp s) := by
  induction ops generalizing s with
  | nil => exact h
  | cons op t ih => exact ih _ (applyServerOp_preserves s op h)

/-- C1: every storage-node state reachable from the initial empty state
by any sequence of `handle_write`, `handle_read` and `delete_chunk`
operations has `used_capacity` equal to the sum of the stored chunk
sizes, and every stored chunk `c` satisfies `c.size = c.data.length` and
`c.checksum = CRC32(c.data)`. -/
theorem server_invariant_reachable (max_capacity : Nat) (ops : List ServerOp) :
    serverInv (runServer max_capacity ops) :=
  (foldl_preserves ops (initServer max_capacity)
    ⟨⟨rfl, by intro p hp; cases hp⟩, List.nodup_nil⟩).1

/-- Witness for C1, at a concrete run: two writes, a partial overwrite
and a delete. -/
theorem server_invariant_reachable_witness :
    serverInv (runServer 100
      [ServerOp.write 5 ⟨42, 0, [65, 66, 67], 1, ""⟩,
       ServerOp.write 6 ⟨7, 0, [1, 2, 3, 4, 5], 1, ""⟩,
       ServerOp.write 7 ⟨42, 2, [9, 9, 9], 2, ""⟩,
       ServerOp.read 8 ⟨42, 0, 10, 0, ""⟩,
       ServerOp.del 7])
    ∧ (runServer 100
      [ServerOp.write 5 ⟨42, 0, [65, 66, 67], 1, ""⟩,
       ServerOp.write 6 ⟨7, 0, [1, 2, 3, 4, 5], 1, ""⟩,
       ServerOp.write 7 ⟨42, 2, [9, 9, 9], 2, ""⟩,
       ServerOp.read 8 ⟨42, 0, 10, 0, ""⟩,
       ServerOp.del 7]).used_capacity = 5 :=
  ⟨server_invariant_reachable 100 _, by decide⟩

/-! ## OP_WRITE on an absent chunk (C3) -/

/-- C3 counterexample: on an empty node, an `OP_WRITE` to a fresh chunk
with nonzero offset 5 succeeds — there is no `BadOffset` check anywhere in
`handle_write` — and the byte lands at offset 0 of the new chunk. -/
theorem handle_write_new_nonzero_offset_cex :
    (handle_write 0 (initServer 10) ⟨1, 5, [97], 1, ""⟩).2.success = true
    ∧ lookupChunk (handle_write 0 (initServer 10) ⟨1, 5, [97], 1, ""⟩).1.chunks 1
        = some (createdChunk 0 1 [97])
    ∧ (5 : Nat) ≠ 0 := by
  decide

/-- C3 (amended): for an `OP_WRITE` whose `chunk_id` is absent, if
`used_capacity + len(bytes) > max_capacity` the write fails with
`OutOfCapacity` leaving the state unchanged; otherwise a `StoredChunk`
with `version = 1`, `size = len(bytes)` and exactly the request bytes
(stored from offset 0) is created — the request `offset` is ignored, and
no `BadOffset` error exists. -/
theorem handle_write_absent_amended (now : Nat) (s : ServerState) (req : FileWriteRequest)
    (hc : lookupChunk s.chunks req.chunk_id = none) :
    (s.used_capacity + req.data.length > s.max_capacity →
      handle_write now s req = (s, ⟨none, false, "Insufficient storage capacity"⟩))
    ∧ (s.used_capacity + req.data.length ≤ s.max_capacity →
      handle_write now s req
        = ({ s with
              chunks := s.chunks ++ [(req.chunk_id, createdChunk now req.chunk_id req.data)],
              used_capacity := s.used_capacity + req.data.length },
           ⟨some req.chunk_id, true, ""⟩)
      ∧ (createdChunk now req.chunk_id req.data).version = 1
      ∧ (createdChunk now req.chunk_id req.data).size = req.data.length
      ∧ (createdChunk now req.chunk_id req.data).data = req.data) := by
  constructor
  · intro hcap
    unfold handle_write
    rw [if_pos hcap]
  · intro hcap
    refine ⟨?_, rfl, rfl, rfl⟩
    unfold handle_write
    rw [if_neg (by omega), hc]

/-- Witness for the amended C3 theorem: scenario 3 of the spec —
`max_capacity = 10`, 8 bytes already used by chunk 1, a 5-byte write to
chunk 2 fails with `OutOfCapacity` and changes nothing. -/
theorem handle_write_absent_amended_witness :
    lookupChunk (runServer 10
        [ServerOp.write 0 ⟨1, 0, [65, 65, 65, 65, 65, 65, 65, 65], 1, ""⟩]).chunks 2 = none
    ∧ (runServer 10
        [ServerOp.write 0 ⟨1, 0, [65, 65, 65, 65, 65, 65, 65, 65], 1, ""⟩]).used_capacity
        + ([66, 66, 66, 66, 66] : List Nat).length
        > (runServer 10
            [ServerOp.write 0 ⟨1, 0, [65, 65, 65, 65, 65, 65, 65, 65], 1, ""⟩]).max_capacity
    ∧ handle_write 1
        (runServer 10 [ServerOp.write 0 ⟨1, 0, [65, 65, 65, 65, 65, 65, 65, 65], 1, ""⟩])
        ⟨2, 0, [66, 66, 66, 66, 66], 1, ""⟩
      = (runServer 10 [ServerOp.write 0 ⟨1, 0, [65, 65, 65, 65, 65, 65, 65, 65], 1, ""⟩],
         ⟨none, false, "Insufficient storage capacity"⟩) := by
  refine ⟨by decide, by decide, ?_⟩
  exact (handle_write_absent_amended 1 _ _ (by decide)).1 (by decide)

/-! ## OP_READ (C4) -/

theorem sub32_of_le (a b : Nat) (ha : a < U32) (hb : b ≤ a) : sub32 a b = a - b := by
  unfold sub32
  rw [Nat.mod_eq_of_lt ha, Nat.mod_eq_of_lt (by omega : b < U32)]
  rw [show a + U32 - b = U32 + (a - b) by omega, Nat.add_mod_left]
  exact Nat.mod_eq_of_lt (by omega)

/-- C4: `handle_read` on an absent chunk answers `NotFound` ("Chunk not
found"); on a present chunk with `offset ≥ size` it answers `OutOfRange`
("Offset out of range") touching nothing; and otherwise it succeeds with
exactly the chunk's bytes in `[offset, min(offset + length, size))` —
possibly fewer than `length` bytes — and updates `last_access`. -/
theorem handle_read_spec (now : Nat) (s : ServerState) (req : FileReadRequest) :
    (lookupChunk s.chunks req.chunk_id = none →
      handle_read now s req = (s, ⟨[], false, "Chunk not found"⟩))
    ∧ (∀ c, lookupChunk s.chunks req.chunk_id = some c → c.size < U32 →
        (c.size ≤ req.offset →
          handle_read now s req = (s, ⟨[], false, "Offset out of range"⟩))
        ∧ (req.offset < c.size →
          handle_read now s req
            = ({ s with chunks := updateChunk s.chunks req.chunk_id (touchedChunk now c) },
               ⟨(c.data.take (min (req.offset + req.length) c.size)).drop req.offset,
                true, ""⟩))) := by
  constructor
  · intro hnone
    unfold handle_read
    rw [hnone]
  · intro c hsome hlt
    constructor
    · intro hge
      unfold handle_read
      rw [hsome]
      simp only [ge_iff_le, if_pos hge]
    · intro hltoff
      unfold handle_read
      rw [hsome]
      simp only [ge_iff_le, if_neg (by omega : ¬ c.size ≤ req.offset)]
      refine congrArg _ ?_
      refine congrArg (fun d => FileReadResponse.mk d true "") ?_
      rw [sub32_of_le c.size req.offset hlt (by omega)]
      rw [List.take_drop]
      refine congrArg _ ?_
      refine congrArg (fun k => List.take k c.data) ?_
      omega

/-- The reachable demonstration node of spec scenario 2: chunk 42 holds
"ABCDE" on a node with `max_capacity = 1000000`. -/
def readDemoState : ServerState :=
  runServer 1000000 [ServerOp.write 0 ⟨42, 0, [65, 66, 67, 68, 69], 1, ""⟩]

/-- Witness for C4, on `readDemoState`: a read of 10 bytes at offset 0
returns all five bytes, a read at offset 7 is `OutOfRange`, a read of
chunk 9 is `NotFound`. -/
theorem handle_read_spec_witness :
    lookupChunk readDemoState.chunks 42 = some (createdChunk 0 42 [65, 66, 67, 68, 69])
    ∧ handle_read 1 readDemoState ⟨42, 0, 10, 0, ""⟩
      = ({ readDemoState with
            chunks := updateChunk readDemoState.chunks 42
              (touchedChunk 1 (createdChunk 0 42 [65, 66, 67, 68, 69])) },
         ⟨[65, 66, 67, 68, 69], true, ""⟩)
    ∧ handle_read 1 readDemoState ⟨42, 7, 10, 0, ""⟩
      = (readDemoState, ⟨[], false, "Offset out of range"⟩)
    ∧ handle_read 1 readDemoState ⟨9, 0, 10, 0, ""⟩
      = (readDemoState, ⟨[], false, "Chunk not found"⟩) := by
  refine ⟨by decide, ?_, ?_, ?_⟩
  · have h := ((handle_read_spec 1 readDemoState ⟨42, 0, 10, 0, ""⟩).2
      (createdChunk 0 42 [65, 66, 67, 68, 69]) (by decide) (by decide)).2 (by decide)
    rw [h]
    decide
  · exact ((handle_read_spec 1 readDemoState ⟨42, 7, 10, 0, ""⟩).2
      (createdChunk 0 42 [65, 66, 67, 68, 69]) (by decide) (by decide)).1 (by decide)
  · exact (handle_read_spec 1 readDemoState ⟨9, 0, 10, 0, ""⟩).1 (by decide)

/-! ## OP_DELETE (C7) -/

/-- C7: `OP_DELETE` is acknowledged with `OP_ACK` whether or not the
chunk is present; when present, its size is subtracted from
`used_capacity` and the chunk is removed; and deleting the same id twice
leaves the state of one delete. -/
theorem delete_ack_idempotent (s : ServerState) (id : Nat) :
    (process_delete s id).2 = OP_ACK
    ∧ (process_delete (process_delete s id).1 id).1 = (process_delete s id).1
    ∧ ∀ c, lookupChunk s.chunks id = some c →
        (process_delete s id).1.used_capacity = s.used_capacity - c.size
        ∧ lookupChunk (process_delete s id).1.chunks id = none := by
  refine ⟨rfl, ?_, ?_⟩
  · unfold process_delete delete_chunk
    cases hl : lookupChunk s.chunks id with
    | none =>
      simp only [hl]
    | some c =>
      simp only [hl, lookupChunk_eraseChunk]
  · intro c hc
    unfold process_delete delete_chunk
    rw [hc]
    exact ⟨rfl, lookupChunk_eraseChunk _ _⟩

/-- A reachable node holding one 2-byte chunk 1, for the C7 witness. -/
def deleteDemoState : ServerState :=
  runServer 10 [ServerOp.write 0 ⟨1, 0, [5, 5], 1, ""⟩]

/-- Witness for C7, on `deleteDemoState`: the ack is `OP_ACK`, the second
delete is a no-op, the capacity accounting drops by the chunk's size and
the chunk is gone. -/
theorem delete_ack_idempotent_witness :
    lookupChunk deleteDemoState.chunks 1 = some (createdChunk 0 1 [5, 5])
    ∧ (process_delete deleteDemoState 1).2 = OP_ACK
    ∧ (process_delete (process_delete deleteDemoState 1).1 1).1
      = (process_delete deleteDemoState 1).1
    ∧ (process_delete deleteDemoState 1).1.used_capacity
      = deleteDemoState.used_capacity - (createdChunk 0 1 [5, 5]).size
    ∧ lookupChunk (process_delete deleteDemoState 1).1.chunks 1 = none :=
  ⟨by decide,
    (delete_ack_idempotent deleteDemoState 1).1,
    (delete_ack_idempotent deleteDemoState 1).2.1,
    ((delete_ack_idempotent deleteDemoState 1).2.2 (createdChunk 0 1 [5, 5]) (by decide)).1,
    ((delete_ack_idempotent deleteDemoState 1).2.2 (createdChunk 0 1 [5, 5]) (by decide)).2⟩

/-! ## Pointwise contents of resize-and-splice (for C2) -/

theorem getD_replicate_zero (k j : Nat) : (List.replicate k (0 : Nat)).getD j 0 = 0 := by
  rw [List.getD_eq_getElem?_getD, List.getElem?_replicate]
  split <;> rfl

theorem listResize_getD_lt (buf : List Nat) (n i : Nat) (h1 : i < buf.length) (h2 : i < n) :
    (listResize buf n).getD i 0 = buf.getD i 0 := by
  unfold listResize
  rw [List.getD_append _ _ _ _ (by simp [List.length_take]; omega)]
  rw [List.getD_eq_getElem?_getD, List.getElem?_take, if_pos h2, ← List.getD_eq_getElem?_getD]

theorem listResize_getD_zero (buf : List Nat) (n i : Nat) (h1 : buf.length ≤ i) (_h2 : i < n) :
    (listResize buf n).getD i 0 = 0 := by
  unfold listResize
  rw [List.getD_append_right _ _ _ _ (by simp [List.length_take]; omega)]
  exact getD_replicate_zero _ _

theorem splice_getD_at (buf : List Nat) (off : Nat) (d : List Nat)
    (hb : off + d.length ≤ buf.length) (i : Nat) (hi : i < d.length) :
    (splice buf off d).getD (off + i) 0 = d.getD i 0 := by
  unfold splice
  rw [List.take_of_length_le (by omega : d.length ≤ buf.length - off)]
  have hAB : (buf.take off ++ d).length = off + d.length := by
    simp [List.length_take]
    omega
  rw [List.getD_append _ _ _ _ (by rw [hAB]; omega)]
  rw [List.getD_append_right _ _ _ _ (by simp [List.length_take])]
  rw [show off + i - (List.take off buf).length = i from by simp [List.length_take]; omega]

theorem splice_getD_left (buf : List Nat) (off : Nat) (d : List Nat)
    (hoff : off ≤ buf.length) (i : Nat) (hi : i < off) :
    (splice buf off d).getD i 0 = buf.getD i 0 := by
  unfold splice
  rw [List.getD_append _ _ _ _ (by simp [List.length_take]; omega)]
  rw [List.getD_append _ _ _ _ (by simp [List.length_take]; omega)]
  rw [List.getD_eq_getElem?_getD, List.getElem?_take, if_pos hi, ← List.getD_eq_getElem?_getD]

theorem splice_getD_right (buf : List Nat) (off : Nat) (d : List Nat) (i : Nat)
    (hi : off + d.length ≤ i) (hlen : i < buf.length) :
    (splice buf off d).getD i 0 = buf.getD i 0 := by
  unfold splice
  rw [List.take_of_length_le (by omega : d.length ≤ buf.length - off)]
  have hAB : (buf.take off ++ d).length = off + d.length := by
    simp [List.length_take]
    omega
  rw [List.getD_append_right _ _ _ _ (by rw [hAB]; omega), hAB]
  rw [List.getD_eq_getElem?_getD, List.getElem?_drop,
    (by omega : off + d.length + (i - (off + d.length)) = i), ← List.getD_eq_getElem?_getD]

/-! ## OP_WRITE on a present chunk (C2) -/

theorem write_new_size_eq_max (off len sz : Nat) (h1 : off + len < U32) (h2 : sz < U32) :
    write_new_size off len sz = max (off + len) sz := by
  unfold write_new_size
  rw [Nat.mod_eq_of_lt (by omega : off < U32), Nat.mod_eq_of_lt (by omega : len < U32),
    Nat.mod_eq_of_lt h1, Nat.mod_eq_of_lt h2]

/-- A reachable node with `max_capacity = 10` holding one 8-byte chunk,
for the C2 counterexample. -/
def overwriteCexState : ServerState :=
  runServer 10 [ServerOp.write 0 ⟨1, 0, [65, 65, 65, 65, 65, 65, 65, 65], 1, ""⟩]

/-- C2 counterexample: on `overwriteCexState`, overwriting the present
8-byte chunk 1 in place (offset 0, 8 fresh bytes) keeps
`used - current.size + new_size = 8 ≤ max_capacity = 10`, so by the claim
the write must succeed; `handle_write` nevertheless fails with
`OutOfCapacity`, because its first check `used + len(bytes) > max`
(8 + 8 > 10) also applies to writes of already-present chunks. -/
theorem handle_write_existing_cex :
    lookupChunk overwriteCexState.chunks 1
      = some (createdChunk 0 1 [65, 65, 65, 65, 65, 65, 65, 65])
    ∧ (createdChunk 0 1 [65, 65, 65, 65, 65, 65, 65, 65]).size = 8
    ∧ overwriteCexState.used_capacity - 8 + max (0 + 8) 8 ≤ overwriteCexState.max_capacity
    ∧ (handle_write 1 overwriteCexState ⟨1, 0, [66, 66, 66, 66, 66, 66, 66, 66], 1, ""⟩).2
        = ⟨none, false, "Insufficient storage capacity"⟩ := by
  decide

/-- C2 (amended): for an `OP_WRITE` to a present chunk `c` (with the
data-model bounds: no 32-bit overflow in `offset + len`, `size` a 32-bit
value matching the byte count), the write fails with `OutOfCapacity` iff
`used + len(bytes) > max_capacity` (the first check, which applies to
every write) **or** `used - c.size + new_size > max_capacity`, where
`new_size = max(offset + len(bytes), c.size)`; otherwise it succeeds: the
chunk's buffer is grown to `new_size` with any gap zero-filled, the bytes
are spliced at `offset` (old bytes outside the spliced range preserved),
`version` is incremented by one, the checksum is recomputed as the CRC32
of the new bytes, `last_access` is set, and `used_capacity` becomes
`used - c.size + new_size`. -/
theorem handle_write_existing_amended (now : Nat) (s : ServerState) (req : FileWriteRequest)
    (c : StoredChunk) (hc : lookupChunk s.chunks req.chunk_id = some c)
    (hfit : req.offset + req.data.length < U32) (hsz : c.size < U32)
    (hgood : c.size = c.data.length) :
    ((handle_write now s req).2.success = false
      ↔ (s.max_capacity < s.used_capacity + req.data.length
          ∨ s.max_capacity
              < s.used_capacity - c.size + max (req.offset + req.data.length) c.size))
    ∧ (s.used_capacity + req.data.length ≤ s.max_capacity →
       s.used_capacity - c.size + max (req.offset + req.data.length) c.size
           ≤ s.max_capacity →
       handle_write now s req
         = ({ s with
              chunks := updateChunk s.chunks req.chunk_id (writtenChunk now c req.offset req.data),
              used_capacity :=
                s.used_capacity - c.size + max (req.offset + req.data.length) c.size },
            ⟨some req.chunk_id, true, ""⟩)
       ∧ (writtenChunk now c req.offset req.data).version = c.version + 1
       ∧ (writtenChunk now c req.offset req.data).last_access = now
       ∧ (writtenChunk now c req.offset req.data).size
           = max (req.offset + req.data.length) c.size
       ∧ (writtenChunk now c req.offset req.data).data.length
           = max (req.offset + req.data.length) c.size
       ∧ (writtenChunk now c req.offset req.data).checksum
           = calculate_crc32 (writtenChunk now c req.offset req.data).data
       ∧ (∀ i, i < req.data.length →
           (writtenChunk now c req.offset req.data).data.getD (req.offset + i) 0
             = req.data.getD i 0)
       ∧ (∀ i, i < req.offset → i < c.data.length →
           (writtenChunk now c req.offset req.data).data.getD i 0 = c.data.getD i 0)
       ∧ (∀ i, c.data.length ≤ i → i < req.offset →
           (writtenChunk now c req.offset req.data).data.getD i 0 = 0)
       ∧ (∀ i, req.offset + req.data.length ≤ i → i < c.data.length →
           (writtenChunk now c req.offset req.data).data.getD i 0 = c.data.getD i 0)) := by
  have hwns : write_new_size req.offset req.data.length c.size
      = max (req.offset + req.data.length) c.size := write_new_size_eq_max _ _ _ hfit hsz
  have hrb : (listResize c.data (write_new_size req.offset req.data.length c.size)).length
      = max (req.offset + req.data.length) c.size := by
    rw [length_listResize, hwns]
  have hble : req.offset + req.data.length ≤ max (req.offset + req.data.length) c.size :=
    le_max_left _ _
  have case1 : ∀ h1 : s.used_capacity + req.data.length > s.max_capacity,
      handle_write now s req = (s, ⟨none, false, "Insufficient storage capacity"⟩) := by
    intro h1
    unfold handle_write
    rw [if_pos h1]
  have case2 : ∀ _h1 : ¬ s.used_capacity + req.data.length > s.max_capacity,
      ∀ _h2 : s.used_capacity - c.size + write_new_size req.offset req.data.length c.size
          > s.max_capacity,
      handle_write now s req = (s, ⟨none, false, "Insufficient storage capacity"⟩) := by
    intro h1 h2
    simp only [handle_write, hc]
    rw [if_neg h1, if_pos h2]
  have case3 : ∀ _h1 : ¬ s.used_capacity + req.data.length > s.max_capacity,
      ∀ _h2 : ¬ s.used_capacity - c.size + write_new_size req.offset req.data.length c.size
          > s.max_capacity,
      handle_write now s req
        = ({ s with
              chunks := updateChunk s.chunks req.chunk_id (writtenChunk now c req.offset req.data),
              used_capacity :=
                s.used_capacity - c.size
                  + write_new_size req.offset req.data.length c.size },
           ⟨some req.chunk_id, true, ""⟩) := by
    intro h1 h2
    simp only [handle_write, hc]
    rw [if_neg h1, if_neg h2]
  constructor
  · by_cases h1 : s.used_capacity + req.data.length > s.max_capacity
    · rw [case1 h1]
      simp
      omega
    · by_cases h2 : s.used_capacity - c.size
          + write_new_size req.offset req.data.length c.size > s.max_capacity
      · rw [case2 h1 h2]
        simp
        omega
      · rw [case3 h1 h2]
        simp
        omega
  · intro hA hB
    refine ⟨?_, rfl, rfl, ?_, ?_, rfl, ?_, ?_, ?_, ?_⟩
    · rw [case3 (by omega) (by rw [hwns]; omega), hwns]
    · rw [writtenChunk_size, hwns]
    · show (splice (listResize c.data (write_new_size req.offset req.data.length c.size))
          req.offset req.data).length = max (req.offset + req.data.length) c.size
      rw [length_splice, hrb]
    · intro i hi
      show (splice (listResize c.data (write_new_size req.offset req.data.length c.size))
          req.offset req.data).getD (req.offset + i) 0 = req.data.getD i 0
      exact splice_getD_at _ _ _ (by omega) i hi
    · intro i hi hil
      show (splice (listResize c.data (write_new_size req.offset req.data.length c.size))
          req.offset req.data).getD i 0 = c.data.getD i 0
      rw [splice_getD_left _ _ _ (by omega) i hi]
      exact listResize_getD_lt _ _ _ hil (by omega)
    · intro i hil hi
      show (splice (listResize c.data (write_new_size req.offset req.data.length c.size))
          req.offset req.data).getD i 0 = 0
      rw [splice_getD_left _ _ _ (by omega) i hi]
      exact listResize_getD_zero _ _ _ hil (by omega)
    · intro i hi hil
      show (splice (listResize c.data (write_new_size req.offset req.data.length c.size))
          req.offset req.data).getD i 0 = c.data.getD i 0
      rw [splice_getD_right _ _ _ i (by omega) (by omega)]
      exact listResize_getD_lt _ _ _ hil (by omega)

/-- A reachable node with `max_capacity = 100` holding chunk 5 = "abc",
for the C2 witness. -/
def writeDemoState : ServerState :=
  runServer 100 [ServerOp.write 0 ⟨5, 0, [97, 98, 99], 1, ""⟩]

/-- Witness for the amended C2 theorem: an in-place extension of the
3-byte chunk 5 at offset 2 with 3 bytes, on `writeDemoState`; the failure
characterization is instantiated concretely. -/
theorem handle_write_existing_amended_witness :
    lookupChunk writeDemoState.chunks 5 = some (createdChunk 0 5 [97, 98, 99])
    ∧ (2 + ([7, 7, 7] : List Nat).length < U32)
    ∧ (createdChunk 0 5 [97, 98, 99]).size < U32
    ∧ (createdChunk 0 5 [97, 98, 99]).size = (createdChunk 0 5 [97, 98, 99]).data.length
    ∧ ((handle_write 1 writeDemoState ⟨5, 2, [7, 7, 7], 1, ""⟩).2.success = false
        ↔ (writeDemoState.max_capacity
              < writeDemoState.used_capacity + ([7, 7, 7] : List Nat).length
            ∨ writeDemoState.max_capacity
              < writeDemoState.used_capacity - (createdChunk 0 5 [97, 98, 99]).size
                + max (2 + ([7, 7, 7] : List Nat).length) (createdChunk 0 5 [97, 98, 99]).size))
    ∧ (handle_write 1 writeDemoState ⟨5, 2, [7, 7, 7], 1, ""⟩).2.success = true :=
  ⟨by decide, by decide, by decide, by decide,
    (handle_write_existing_amended 1 writeDemoState ⟨5, 2, [7, 7, 7], 1, ""⟩
      (createdChunk 0 5 [97, 98, 99]) (by decide) (by decide) (by decide) (by decide)).1,
    by decide⟩

/-! ## The client session layer (`client_lib.cpp`)

`DistributedFileSystem` keeps `open_files_ : std::map<int, OpenFileHandle>`
and `next_file_handle_` (initialized to 1).  Only the pieces the client
claims touch are modelled; the metadata cache and the connection pool do
not affect them.  Results of network interaction (the metadata answer of
`query_metadata`, the replies inside `read_chunk`/`write_chunk`) are
oracle parameters. -/

/-- `ChunkLocation` from `common.h`. -/
structure ChunkLocation where
  server_id : String
  ip_address : String
  port : Nat
  generation_number : Nat
deriving DecidableEq

/-- `ChunkHandle` from `common.h`. -/
structure ChunkHandle where
  chunk_id : Nat
  replicas : List ChunkLocation
  version : Nat
  creation_time : Nat
  size : Nat
deriving DecidableEq

/-- `FileMetadata` from `common.h`. -/
structure FileMetadata where
  path : String
  file_id : Nat
  permissions : Nat
  creation_time : Nat
  modification_time : Nat
  file_size : Nat
  chunks : List ChunkHandle
  replication_factor : Nat
  owner : String
  is_directory : Bool
deriving DecidableEq

/-- The `FileMetadata` default constructor from `common.h`: `file_id = 0`,
permissions `0644`, empty chunk list, replication factor 3, timestamps
set to the current time. -/
def FileMetadata.mkDefault (now : Nat) : FileMetadata :=
  { path := ""
    file_id := 0
    permissions := 0o644
    creation_time := now
    modification_time := now
    file_size := 0
    chunks := []
    replication_factor := 3
    owner := ""
    is_directory := false }

/-- `DistributedFileSystem::OpenFileHandle` from `client_lib.h`. -/
structure OpenFileHandle where
  path : String
  file_id : Nat
  current_offset : Nat
  chunks : List ChunkHandle
  writable : Bool
  open_time : Nat
deriving DecidableEq

/-- The client-session state the claims touch: the open-file table and
the next file handle. -/
structure ClientState where
  open_files : List (Nat × OpenFileHandle)
  next_file_handle : Nat
deriving DecidableEq

/-- A freshly constructed `DistributedFileSystem`: empty open-file table,
`next_file_handle_ = 1`. -/
def initClient : ClientState :=
  { open_files := [], next_file_handle := 1 }

/-- `open_files_.find(fd)`. -/
def lookupFile : List (Nat × OpenFileHandle) → Nat → Option OpenFileHandle
  | [], _ => none
  | (k, h) :: t, fd => if k = fd then some h else lookupFile t fd

/-- In-place mutation of the found open-file entry. -/
def updateFile (l : List (Nat × OpenFileHandle)) (fd : Nat) (h : OpenFileHandle) :
    List (Nat × OpenFileHandle) :=
  l.map fun p => if p.1 = fd then (fd, h) else p

/-- `open_files_.erase(it)`. -/
def eraseFile (l : List (Nat × OpenFileHandle)) (fd : Nat) : List (Nat × OpenFileHandle) :=
  l.filter fun p => p.1 ≠ fd

/-- `open_files_[fd] = handle` (`std::map::operator[]`). -/
def insertFile (l : List (Nat × OpenFileHandle)) (fd : Nat) (h : OpenFileHandle) :
    List (Nat × OpenFileHandle) :=
  if (lookupFile l fd).isSome then updateFile l fd h else l ++ [(fd, h)]

/-- The network-visible outcomes the client code would consult: what a
metadata query returns, and whether a chunk read/write RPC succeeds.
`read_chunk`/`write_chunk` never reach the network (see below), so only
the shape matters. -/
structure NetOracle where
  readChunkData : Nat → Nat → Nat → Option (List Nat)
  writeChunkOk : Nat → Nat → List Nat → Bool

/-- `DistributedFileSystem::read_chunk` (`client_lib.cpp`).  The function
begins with a freshly default-constructed `FileMetadata dummy` local and
returns `false` when `dummy.chunks` is empty — which it always is — so the
network tail (modelled by the oracle) is unreachable. -/
def DFS.read_chunk (net : NetOracle) (now : Nat) (chunk_id offset length : Nat) :
    Option (List Nat) :=
  if (FileMetadata.mkDefault now).chunks.isEmpty then none
  else net.readChunkData chunk_id offset length

/-- `DistributedFileSystem::write_chunk` (`client_lib.cpp`); same
`FileMetadata dummy` guard as `read_chunk`. -/
def DFS.write_chunk (net : NetOracle) (now : Nat) (chunk_id offset : Nat)
    (data : List Nat) : Bool :=
  if (FileMetadata.mkDefault now).chunks.isEmpty then false
  else net.writeChunkOk chunk_id offset data

/-- `DistributedFileSystem::read` (`client_lib.cpp`): null buffer or zero
size return 0; unknown fd returns 0; an empty snapshotted chunk list
returns 0; otherwise `read_chunk` on the first chunk decides — on failure
return 0, on success copy out, advance `current_offset` and return the
byte count.  `current_offset` and `size` are truncated to `uint32_t` when
passed to `read_chunk`. -/
def DFS.read (net : NetOracle) (now : Nat) (s : ClientState) (fd : Nat)
    (buffer_null : Bool) (size : Nat) : Nat × ClientState :=
  if buffer_null || size == 0 then (0, s)
  else
    match lookupFile s.open_files fd with
    | none => (0, s)
    | some h =>
      match h.chunks with
      | [] => (0, s)
      | c0 :: _ =>
        match DFS.read_chunk net now c0.chunk_id (h.current_offset % U32) (size % U32) with
        | none => (0, s)
        | some data =>
            (data.length,
             { s with open_files :=
                 updateFile s.open_files fd { h with current_offset := h.current_offset + data.length } })

/-- `DistributedFileSystem::write` (`client_lib.cpp`): null data or zero
size return 0; unknown fd returns 0; non-writable handle returns 0; empty
chunk list returns 0; otherwise `write_chunk` on the first chunk decides —
on failure return 0, on success advance `current_offset` and return
`size`. -/
def DFS.write (net : NetOracle) (now : Nat) (s : ClientState) (fd : Nat)
    (data_null : Bool) (data : List Nat) : Nat × ClientState :=
  if data_null || data.length == 0 then (0, s)
  else
    match lookupFile s.open_files fd with
    | none => (0, s)
    | some h =>
      if !h.writable then (0, s)
      else
        match h.chunks with
        | [] => (0, s)
        | c0 :: _ =>
          if DFS.write_chunk net now c0.chunk_id (h.current_offset % U32) data then
            (data.length,
             { s with open_files :=
                 updateFile s.open_files fd { h with current_offset := h.current_offset + data.length } })
          else (0, s)

/-- `DistributedFileSystem::open` (`client_lib.cpp`): a failed metadata
query (`meta = none`) returns -1 (`none` here) and changes nothing;
otherwise the fresh fd `next_file_handle_++` is returned and an
`OpenFileHandle` (offset 0, chunk list snapshotted from the metadata,
writable iff `flags & 1`) is recorded. -/
def DFS.open (now : Nat) (s : ClientState) (path : String) (flags : Nat)
    (meta : Option FileMetadata) : Option Nat × ClientState :=
  match meta with
  | none => (none, s)
  | some m =>
      (some s.next_file_handle,
       { s with
          next_file_handle := s.next_file_handle + 1,
          open_files := insertFile s.open_files s.next_file_handle
            { path := path
              file_id := m.file_id
              current_offset := 0
              chunks := m.chunks
              writable := flags % 2 == 1
              open_time := now } })

/-- `DistributedFileSystem::close` (`client_lib.cpp`): unknown fd returns
-1; otherwise the handle is erased and 0 returned. -/
def DFS.close (s : ClientState) (fd : Nat) : Int × ClientState :=
  match lookupFile s.open_files fd with
  | none => (-1, s)
  | some _ => (0, { s with open_files := eraseFile s.open_files fd })

/-- The client calls that touch the open-file table. -/
inductive ClientEvent where
  | openEv (now : Nat) (path : String) (flags : Nat) (meta : Option FileMetadata)
  | closeEv (fd : Nat)
  | readEv (net : NetOracle) (now : Nat) (fd : Nat) (buffer_null : Bool) (size : Nat)
  | writeEv (net : NetOracle) (now : Nat) (fd : Nat) (data_null : Bool) (data : List Nat)

/-- State transition of one client call. -/
def applyClientEvent (s : ClientState) : ClientEvent → ClientState
  | .openEv now path flags meta => (DFS.open now s path flags meta).2
  | .closeEv fd => (DFS.close s fd).2
  | .readEv net now fd bn size => (DFS.read net now s fd bn size).2
  | .writeEv net now fd dn data => (DFS.write net now s fd dn data).2

/-- The fds handed out by the successful `open` calls of an event
sequence, in order. -/
def openedFdsFrom (s : ClientState) : List ClientEvent → List Nat
  | [] => []
  | e :: es =>
    match e with
    | .openEv now path flags meta =>
      match DFS.open now s path flags meta with
      | (some fd, s') => fd :: openedFdsFrom s' es
      | (none, s') => openedFdsFrom s' es
    | _ => openedFdsFrom (applyClientEvent s e) es

/-! ## C9: client read/write always return 0 -/

/-- C9: for every client state, fd, non-null buffer and positive size,
`DistributedFileSystem::read` and `::write` return 0 and leave the state
— in particular the open-file handle and its `current_offset` —
unchanged: `read_chunk`/`write_chunk` test the empty chunk list of a
default-constructed `FileMetadata` and fail before any network I/O. -/
theorem client_read_write_return_zero (net : NetOracle) (now : Nat) (s : ClientState)
    (fd : Nat) (size : Nat) (data : List Nat) (hs : 0 < size) (hd : 0 < data.length) :
    DFS.read net now s fd false size = (0, s)
    ∧ DFS.write net now s fd false data = (0, s) := by
  have hrc : ∀ a b c, DFS.read_chunk net now a b c = none := fun _ _ _ => rfl
  have hwc : ∀ a b c, DFS.write_chunk net now a b c = false := fun _ _ _ => rfl
  constructor
  · unfold DFS.read
    rw [if_neg (by simp only [Bool.false_or, beq_iff_eq]; omega)]
    split
    · rfl
    · split
      · rfl
      · rw [hrc]
  · unfold DFS.write
    rw [if_neg (by simp only [Bool.false_or, beq_iff_eq]; omega)]
    split
    · rfl
    · split
      · rfl
      · split
        · rfl
        · rw [hwc]
          rfl

/-- An oracle whose network answers all fail (never consulted anyway). -/
def nullOracle : NetOracle := ⟨fun _ _ _ => none, fun _ _ _ => false⟩

/-- A chunk handle for the C9 demonstration file. -/
def demoChunkHandle : ChunkHandle := ⟨77, [], 1, 0, 3⟩

/-- Metadata of a one-chunk file, for the C9 witness. -/
def demoClientMeta : FileMetadata :=
  { FileMetadata.mkDefault 0 with file_id := 9, chunks := [demoChunkHandle] }

/-- A client that has successfully opened `/f` writable (fd 1), with a
non-empty snapshotted chunk list — the deepest branch of `read`/`write`.  -/
def demoClientState : ClientState :=
  (DFS.open 0 initClient "/f" 1 (some demoClientMeta)).2

/-- Witness for C9 at `demoClientState`: both calls return 0 and leave
the state unchanged even though fd 1 is open, writable and has a
chunk. -/
theorem client_read_write_return_zero_witness :
    (0 : Nat) < 1 ∧ (0 : Nat) < ([9] : List Nat).length
    ∧ (lookupFile demoClientState.open_files 1).isSome = true
    ∧ DFS.read nullOracle 0 demoClientState 1 false 1 = (0, demoClientState)
    ∧ DFS.write nullOracle 0 demoClientState 1 false [9] = (0, demoClientState) :=
  ⟨by decide, by decide, by decide,
    (client_read_write_return_zero nullOracle 0 demoClientState 1 1 [9]
      (by decide) (by decide)).1,
    (client_read_write_return_zero nullOracle 0 demoClientState 1 1 [9]
      (by decide) (by decide)).2⟩

/-! ## C10: file descriptors never reused -/

theorem close_next (s : ClientState) (fd : Nat) :
    (DFS.close s fd).2.next_file_handle = s.next_file_handle := by
  unfold DFS.close
  cases lookupFile s.open_files fd <;> rfl

theorem read_next (net : NetOracle) (now : Nat) (s : ClientState) (fd : Nat)
    (bn : Bool) (size : Nat) :
    (DFS.read net now s fd bn size).2.next_file_handle = s.next_file_handle := by
  unfold DFS.read
  split
  · rfl
  · split
    · rfl
    · split
      · rfl
      · split
        · rfl
        · rfl

theorem write_next (net : NetOracle) (now : Nat) (s : ClientState) (fd : Nat)
    (dn : Bool) (data : List Nat) :
    (DFS.write net now s fd dn data).2.next_file_handle = s.next_file_handle := by
  unfold DFS.write
  split
  · rfl
  · split
    · rfl
    · split
      · rfl
      · split
        · rfl
        · split
          · rfl
          · rfl

theorem applyClientEvent_next (s : ClientState) (e : ClientEvent) :
    s.next_file_handle ≤ (applyClientEvent s e).next_file_handle := by
  cases e with
  | openEv now path flags meta =>
    cases meta with
    | none => exact Nat.le_refl _
    | some m => exact Nat.le_succ _
  | closeEv fd =>
    rw [show applyClientEvent s (ClientEvent.closeEv fd) = (DFS.close s fd).2 from rfl,
      close_next]
  | readEv net now fd bn size =>
    rw [show applyClientEvent s (ClientEvent.readEv net now fd bn size)
        = (DFS.read net now s fd bn size).2 from rfl, read_next]
  | writeEv net now fd dn data =>
    rw [show applyClientEvent s (ClientEvent.writeEv net now fd dn data)
        = (DFS.write net now s fd dn data).2 from rfl, write_next]

theorem openedFdsFrom_bounds (es : List ClientEvent) (s : ClientState) :
    (∀ fd ∈ openedFdsFrom s es, s.next_file_handle ≤ fd)
    ∧ (openedFdsFrom s es).Pairwise (· < ·) := by
  induction es generalizing s with
  | nil => simp [openedFdsFrom]
  | cons e t ih =>
    cases e with
    | openEv now path flags meta =>
      cases meta with
      | none =>
        simpa only [openedFdsFrom, DFS.open] using ih s
      | some m =>
        have ihs := ih (DFS.open now s path flags (some m)).2
        have hnext : (DFS.open now s path flags (some m)).2.next_file_handle
            = s.next_file_handle + 1 := rfl
        rw [hnext] at ihs
        simp only [openedFdsFrom, DFS.open]
        constructor
        · intro fd hfd
          rcases List.mem_cons.1 hfd with h1 | h2
          · subst h1
            exact Nat.le_refl _
          · exact Nat.le_trans (Nat.le_succ _) (ihs.1 fd h2)
        · rw [List.pairwise_cons]
          exact ⟨fun fd h => Nat.lt_of_lt_of_le (Nat.lt_succ_self _) (ihs.1 fd h), ihs.2⟩
    | closeEv fd =>
      have ihs := ih (applyClientEvent s (ClientEvent.closeEv fd))
      refine ⟨fun x hx => Nat.le_trans (applyClientEvent_next s _) (ihs.1 x hx), ihs.2⟩
    | readEv net now fd bn size =>
      have ihs := ih (applyClientEvent s (ClientEvent.readEv net now fd bn size))
      refine ⟨fun x hx => Nat.le_trans (applyClientEvent_next s _) (ihs.1 x hx), ihs.2⟩
    | writeEv net now fd dn data =>
      have ihs := ih (applyClientEvent s (ClientEvent.writeEv net now fd dn data))
      refine ⟨fun x hx => Nat.le_trans (applyClientEvent_next s _) (ihs.1 x hx), ihs.2⟩

/-- C10: within one `DistributedFileSystem` instance, the fds returned by
successful `open` calls are strictly increasing over the lifetime of the
instance — never reused, even after `close` — and every one of them is at
least 1. -/
theorem open_fds_monotone (es : List ClientEvent) :
    (openedFdsFrom initClient es).Pairwise (· < ·)
    ∧ ∀ fd ∈ openedFdsFrom initClient es, 1 ≤ fd :=
  ⟨(openedFdsFrom_bounds es initClient).2,
   fun fd h => (openedFdsFrom_bounds es initClient).1 fd h⟩

/-- Witness for C10: open `/a` (fd 1), close it, open `/b` — the second
open returns fd 2, not the recycled fd 1. -/
theorem open_fds_monotone_witness :
    openedFdsFrom initClient
      [ClientEvent.openEv 0 "/a" 0 (some (FileMetadata.mkDefault 0)),
       ClientEvent.closeEv 1,
       ClientEvent.openEv 1 "/b" 1 (some (FileMetadata.mkDefault 0))] = [1, 2]
    ∧ (openedFdsFrom initClient
        [ClientEvent.openEv 0 "/a" 0 (some (FileMetadata.mkDefault 0)),
         ClientEvent.closeEv 1,
         ClientEvent.openEv 1 "/b" 1 (some (FileMetadata.mkDefault 0))]).Pairwise (· < ·)
    ∧ ∀ fd ∈ openedFdsFrom initClient
        [ClientEvent.openEv 0 "/a" 0 (some (FileMetadata.mkDefault 0)),
         ClientEvent.closeEv 1,
         ClientEvent.openEv 1 "/b" 1 (some (FileMetadata.mkDefault 0))], 1 ≤ fd :=
  ⟨by decide, (open_fds_monotone _).1, (open_fds_monotone _).2⟩
